import Mathlib

/-!
Verification of the realtimemidi pitch-to-MIDI core.

The development embeds the two algorithmic modules of the repository:

* `js/audioProcessor.js` — the YIN pitch estimator (`difference`,
  `cumulativeMeanNormalizedDifference`, `absoluteThreshold`,
  `parabolicInterpolation`, `detectPitch`, `processAudio`);
* `js/midiConverter.js` — the note-state tracker (`sendNoteOn`, `sendNoteOff`,
  `handleDetectedPitches`, `frequencyToMidiNote`) together with the glue in
  `js/app.js` (`handlePitchDetected`) and `js/utils.js`
  (`midiNoteToFrequency`).

JavaScript numbers are IEEE-754 doubles.  The embedding idealizes finite
doubles as exact rationals but keeps the special values `Infinity`,
`-Infinity` and `NaN` explicit, because the control flow of the estimator
genuinely depends on them (division by a zero running sum, out-of-range
typed-array reads yielding `undefined`/`NaN`, and `NaN` comparisons being
false).  The note mapper uses `Math.log2`/`Math.round`, idealized over `ℝ`.
-/

/-- Model of a JavaScript number: finite doubles are idealized as exact
rationals; `Infinity`, `-Infinity` and `NaN` are explicit constructors with
IEEE-754 arithmetic rules. -/
inductive JSVal where
  | num : ℚ → JSVal
  | posInf : JSVal
  | negInf : JSVal
  | nan : JSVal
deriving DecidableEq, Repr

/-- IEEE-754 negation. -/
def jsNeg : JSVal → JSVal
  | .num a => .num (-a)
  | .posInf => .negInf
  | .negInf => .posInf
  | .nan => .nan

/-- IEEE-754 addition (any `NaN` operand propagates; `∞ + (-∞) = NaN`). -/
def jsAdd : JSVal → JSVal → JSVal
  | .num a, .num b => .num (a + b)
  | .num _, .posInf => .posInf
  | .num _, .negInf => .negInf
  | .posInf, .num _ => .posInf
  | .negInf, .num _ => .negInf
  | .posInf, .posInf => .posInf
  | .negInf, .negInf => .negInf
  | .posInf, .negInf => .nan
  | .negInf, .posInf => .nan
  | _, _ => .nan

/-- IEEE-754 subtraction, `a - b = a + (-b)`. -/
def jsSub (a b : JSVal) : JSVal := jsAdd a (jsNeg b)

/-- IEEE-754 multiplication (`0 · ∞ = NaN`, sign rules for infinities). -/
def jsMul : JSVal → JSVal → JSVal
  | .num a, .num b => .num (a * b)
  | .num a, .posInf => if 0 < a then .posInf else if a < 0 then .negInf else .nan
  | .num a, .negInf => if 0 < a then .negInf else if a < 0 then .posInf else .nan
  | .posInf, .num b => if 0 < b then .posInf else if b < 0 then .negInf else .nan
  | .negInf, .num b => if 0 < b then .negInf else if b < 0 then .posInf else .nan
  | .posInf, .posInf => .posInf
  | .negInf, .negInf => .posInf
  | .posInf, .negInf => .negInf
  | .negInf, .posInf => .negInf
  | _, _ => .nan

/-- IEEE-754 division; a nonzero finite value divided by (positive) zero gives
a signed infinity, `0 / 0 = NaN`, finite / ∞ = 0, `∞ / ∞ = NaN`. -/
def jsDiv : JSVal → JSVal → JSVal
  | .num a, .num b =>
      if b = 0 then (if 0 < a then .posInf else if a < 0 then .negInf else .nan)
      else .num (a / b)
  | .num _, .posInf => .num 0
  | .num _, .negInf => .num 0
  | .posInf, .num b => if 0 ≤ b then .posInf else .negInf
  | .negInf, .num b => if 0 ≤ b then .negInf else .posInf
  | _, _ => .nan

/-- IEEE-754 `<` comparison: any comparison involving `NaN` is false. -/
def jsLt : JSVal → JSVal → Bool
  | .num a, .num b => decide (a < b)
  | .num _, .posInf => true
  | .negInf, .num _ => true
  | .negInf, .posInf => true
  | _, _ => false

/-- JavaScript truthiness of a number: `0` and `NaN` are falsy, every other
number (including the infinities) is truthy. -/
def jsTruthy : JSVal → Bool
  | .num a => decide (a ≠ 0)
  | .posInf => true
  | .negInf => true
  | .nan => false

/-- Read a sample from a `Float32Array` of rationals: an out-of-range index
yields `undefined`, which behaves as `NaN` in arithmetic. -/
def readQ (buf : List ℚ) (i : ℕ) : JSVal :=
  match buf[i]? with
  | some q => .num q
  | none => .nan

/-- Read an entry of the (already computed) yin buffer; out-of-range reads
behave as `NaN`. -/
def readV (buf : List JSVal) (i : ℕ) : JSVal := buf.getD i .nan

/-- Read an entry of the yin buffer at a (possibly negative) integer index,
as `parabolicInterpolation` does with `tau - 1` and `tau + 1`. -/
def readVZ (buf : List JSVal) (i : ℤ) : JSVal :=
  if 0 ≤ i ∧ i < (buf.length : ℤ) then readV buf i.toNat else .nan

/-- `const BUFFER_SIZE = 2048` in `js/audioProcessor.js`. -/
def BUFFER_SIZE : ℕ := 2048

/-- `const YIN_THRESHOLD = 0.15` in `js/audioProcessor.js`. -/
def YIN_THRESHOLD : ℚ := 15 / 100

/-- `const SAMPLE_RATE = 44100` in `js/audioProcessor.js`. -/
def SAMPLE_RATE : ℚ := 44100

/-- Inner accumulation loop of `difference` for one lag `tau`:
`for i in [0, yinLen): delta = buffer[i] - buffer[i+tau]; acc += delta*delta`,
starting from the value `0` that the zeroing loop wrote into the entry. -/
def diffAccum (buffer : List ℚ) (yinLen tau : ℕ) : JSVal :=
  (List.range yinLen).foldl
    (fun acc i =>
      let delta := jsSub (readQ buffer i) (readQ buffer (i + tau))
      jsAdd acc (jsMul delta delta))
    (.num 0)

/-- `difference(buffer)`: first loop zeroes every entry of the persistent
`yinBuffer` (so only its length can influence the result), second loop
accumulates the squared differences for every `tau ≥ 1`; the entry at
`tau = 0` keeps the value `0` written by the zeroing loop. -/
def difference (prevYin : List JSVal) (buffer : List ℚ) : List JSVal :=
  let zeroed := prevYin.map fun _ => JSVal.num 0
  (List.range zeroed.length).map fun tau =>
    if tau = 0 then JSVal.num 0 else diffAccum buffer zeroed.length tau

/-- Value of `runningSum` in `cumulativeMeanNormalizedDifference` after the
iteration for lag `tau`: the sum of the original entries `buf[1] .. buf[tau]`
(the loop reads each entry before overwriting it). -/
def runningSum (buf : List JSVal) (tau : ℕ) : JSVal :=
  (List.range' 1 tau).foldl (fun s k => jsAdd s (readV buf k)) (.num 0)

/-- `cumulativeMeanNormalizedDifference()`: `yinBuffer[0] = 1` and for
`tau ≥ 1`, `yinBuffer[tau] *= tau / runningSum` with `runningSum` the sum of
the original `yinBuffer[1..tau]`.  The division is not guarded: a zero
running sum produces `tau / 0 = Infinity` and then `0 · Infinity = NaN`. -/
def cmnd (buf : List JSVal) : List JSVal :=
  (List.range buf.length).map fun tau =>
    if tau = 0 then JSVal.num 1
    else jsMul (readV buf tau) (jsDiv (.num (tau : ℚ)) (runningSum buf tau))

/-- Mirror of the division performed by `cumulativeMeanNormalizedDifference`:
`true` iff the statement `yinBuffer[tau] *= tau / runningSum` is executed with
`runningSum = 0` for some lag `tau` in `[1, buf.length)`. -/
def cmndZeroDivision (buf : List JSVal) : Bool :=
  (List.range' 1 (buf.length - 1)).any fun tau =>
    match runningSum buf tau with
    | .num q => decide (q = 0)
    | _ => false

/-- Inner `while` loop of `absoluteThreshold`: starting from the first lag
below the threshold, advance while the next entry is strictly smaller. -/
def descend (buf : List JSVal) (tau : ℕ) : ℕ :=
  if h : tau + 1 < buf.length ∧ jsLt (readV buf (tau + 1)) (readV buf tau) = true then
    descend buf (tau + 1)
  else tau
termination_by buf.length - tau
decreasing_by omega

/-- `absoluteThreshold()`: scan `tau` from `1` to `yinBuffer.length - 1` for
the first entry below `YIN_THRESHOLD`, descend to the local minimum, and
return it; return `-1` when no entry is below the threshold. -/
def absoluteThreshold (buf : List JSVal) : ℤ :=
  match (List.range' 1 (buf.length - 1)).find?
      (fun tau => jsLt (readV buf tau) (.num YIN_THRESHOLD)) with
  | some tau => (descend buf tau : ℤ)
  | none => -1

/-- `parabolicInterpolation(tau)`: reads `yinBuffer[tau-1]`, `yinBuffer[tau]`
and `yinBuffer[tau+1]` with no boundary guard and returns
`tau + (y3 - y1) / (2 * (2*y2 - y1 - y3))`. -/
def parabolicInterpolation (buf : List JSVal) (tau : ℤ) : JSVal :=
  let y1 := readVZ buf (tau - 1)
  let y2 := readVZ buf tau
  let y3 := readVZ buf (tau + 1)
  jsAdd (.num (tau : ℚ))
    (jsDiv (jsSub y3 y1) (jsMul (.num 2) (jsSub (jsSub (jsMul (.num 2) y2) y1) y3)))

/-- Indices `tau - 1`, `tau`, `tau + 1` read by `parabolicInterpolation`:
`true` iff one of them falls outside the valid range `[0, buf.length)`. -/
def parabolicOutOfRange (buf : List JSVal) (tau : ℤ) : Bool :=
  !(decide (0 ≤ tau - 1) && decide (tau + 1 < (buf.length : ℤ)))

/-- `detectPitch(buffer)` together with the new contents of the persistent
`yinBuffer` (the output of the normalization step): runs the four YIN steps
and converts the refined lag to a frequency, `SAMPLE_RATE / betterTau`. -/
def detectPitchAux (prevYin : List JSVal) (buffer : List ℚ) :
    List JSVal × Option JSVal :=
  let cm := cmnd (difference prevYin buffer)
  let tau := absoluteThreshold cm
  if tau = -1 then (cm, none)
  else (cm, some (jsDiv (.num SAMPLE_RATE) (parabolicInterpolation cm tau)))

/-- Return value of `detectPitch(buffer)`: `null` (`none`) when no lag passes
the threshold, otherwise the frequency `SAMPLE_RATE / betterTau`. -/
def detectPitch (prevYin : List JSVal) (buffer : List ℚ) : Option JSVal :=
  (detectPitchAux prevYin buffer).2

/-- Persistent state of an `AudioProcessor`: the 2048-sample `audioBuffer`
and the 1024-entry `yinBuffer`, both `Float32Array`s reused across frames. -/
structure AudioProcessorState where
  audioBuffer : List ℚ
  yinBuffer : List JSVal
deriving DecidableEq, Repr

/-- `Float32Array.prototype.set(src)` at offset 0: throws a `RangeError`
(before copying anything) when the source is longer than the target,
otherwise overwrites the first `src.length` entries and keeps the stale
remainder of the target. -/
def setTypedArray (dst src : List ℚ) : Except Unit (List ℚ) :=
  if dst.length < src.length then .error ()
  else .ok (src ++ dst.drop src.length)

/-- `processAudio(inputBuffer)`: copies the input over the front of the
persistent `audioBuffer` via `set` (which throws on a too-long input and
performs no length check otherwise), then runs `detectPitch` on the whole
2048-sample buffer.  Returns the new state and the detected pitch. -/
def processAudio (st : AudioProcessorState) (input : List ℚ) :
    Except Unit (AudioProcessorState × Option JSVal) :=
  match setTypedArray st.audioBuffer input with
  | .error e => .error e
  | .ok newBuf =>
      let r := detectPitchAux st.yinBuffer newBuf
      .ok ({ audioBuffer := newBuf, yinBuffer := r.1 }, r.2)

/-- Guard `if (pitch && this.onPitchDetected)` of `processAudio`: the pitch
callback fires only for a truthy detected pitch (`null`, `0` and `NaN` do
not fire it). -/
def pitchCallbackFires (r : Except Unit (AudioProcessorState × Option JSVal)) : Bool :=
  match r with
  | .ok (_, some v) => jsTruthy v
  | _ => false

/-- One element of the `detectedPitches` array handed to
`handleDetectedPitches`: a frequency and a confidence. -/
structure Pitch where
  freq : ℝ
  probability : ℚ

/-- A MIDI message sent by the converter: `[0x90, note, velocity]` (Note On)
or `[0x80, note, 0]` (Note Off). -/
inductive NoteEvent where
  | on : ℤ → ℤ → NoteEvent
  | off : ℤ → NoteEvent
deriving DecidableEq, Repr

/-- State of a `MIDIConverter`: whether a MIDI output device is selected
(`midiOutput` non-null) and the set of currently active notes. -/
structure MIDIConverter where
  hasOutput : Bool
  activeNotes : Finset ℤ
deriving DecidableEq

/-- `frequencyToMidiNote(frequency)` from `js/midiConverter.js` (the copy in
`js/utils.js` is identical): `Math.round(69 + 12 * Math.log2(frequency / 440))`,
idealized over the reals. -/
noncomputable def frequencyToMidiNote (frequency : ℝ) : ℤ :=
  round (69 + 12 * Real.logb 2 (frequency / 440))

/-- `midiNoteToFrequency(midiNote)` from `js/utils.js`:
`440 * Math.pow(2, (midiNote - 69) / 12)`. -/
noncomputable def midiNoteToFrequency (midiNote : ℤ) : ℝ :=
  440 * (2 : ℝ) ^ (((midiNote : ℝ) - 69) / 12)

/-- `sendNoteOn(midiNote, velocity)`: without an output device it returns at
once; otherwise it sends `[0x90, midiNote, velocity]` and records the note,
but only when the note is not already active. -/
def sendNoteOn (st : MIDIConverter) (midiNote velocity : ℤ) :
    MIDIConverter × List NoteEvent :=
  if !st.hasOutput then (st, [])
  else if midiNote ∈ st.activeNotes then (st, [])
  else ({ st with activeNotes := insert midiNote st.activeNotes },
        [.on midiNote velocity])

/-- `sendNoteOff(midiNote)`: without an output device it returns at once;
otherwise it sends `[0x80, midiNote, 0]` and removes the note, but only when
the note is currently active. -/
def sendNoteOff (st : MIDIConverter) (midiNote : ℤ) :
    MIDIConverter × List NoteEvent :=
  if !st.hasOutput then (st, [])
  else if midiNote ∈ st.activeNotes then
    ({ st with activeNotes := st.activeNotes.erase midiNote }, [.off midiNote])
  else (st, [])

/-- Body of the first loop of `handleDetectedPitches` for one element of
`detectedPitches`: if its probability meets the threshold, convert it to a
note number, collect it in `detectedNotes` and call `sendNoteOn(note, 100)`;
the accumulator is `(detectedNotes, converter state, messages sent)`. -/
noncomputable def notePhase1Step (noteThreshold : ℚ)
    (acc : Finset ℤ × MIDIConverter × List NoteEvent) (p : Pitch) :
    Finset ℤ × MIDIConverter × List NoteEvent :=
  if noteThreshold ≤ p.probability then
    let midiNote := frequencyToMidiNote p.freq
    let s := sendNoteOn acc.2.1 midiNote 100
    (insert midiNote acc.1, s.1, acc.2.2 ++ s.2)
  else acc

/-- First loop of `handleDetectedPitches` (`detectedPitches.forEach`). -/
noncomputable def notePhase1 (st : MIDIConverter) (detectedPitches : List Pitch)
    (noteThreshold : ℚ) : Finset ℤ × MIDIConverter × List NoteEvent :=
  detectedPitches.foldl (notePhase1Step noteThreshold) (∅, st, [])

/-- Body of the second loop of `handleDetectedPitches` for one active note:
if it is not among the detected notes, call `sendNoteOff`. -/
def notePhase2Step (detectedNotes : Finset ℤ)
    (acc : MIDIConverter × List NoteEvent) (activeNote : ℤ) :
    MIDIConverter × List NoteEvent :=
  if activeNote ∉ detectedNotes then
    let s := sendNoteOff acc.1 activeNote
    (s.1, acc.2 ++ s.2)
  else acc

/-- Second loop of `handleDetectedPitches` (`this.activeNotes.forEach`):
`Set.forEach` with only the visited element deleted in place visits exactly
the elements present when the loop starts. -/
noncomputable def notePhase2 (detectedNotes : Finset ℤ) (st : MIDIConverter)
    (evs : List NoteEvent) : MIDIConverter × List NoteEvent :=
  st.activeNotes.toList.foldl (notePhase2Step detectedNotes) (st, evs)

/-- `handleDetectedPitches(detectedPitches, noteThreshold)`: the two loops in
sequence, returning the final converter state and the MIDI messages sent. -/
noncomputable def handleDetectedPitches (st : MIDIConverter)
    (detectedPitches : List Pitch) (noteThreshold : ℚ) :
    MIDIConverter × List NoteEvent :=
  let r := notePhase1 st detectedPitches noteThreshold
  notePhase2 r.1 r.2.1 r.2.2

/-- Set of note numbers of the pitches that meet the confidence threshold —
the contents of `detectedNotes` after the first loop. -/
noncomputable def candidateNoteSet (ps : List Pitch) (th : ℚ) : Finset ℤ :=
  ((ps.filter fun p => decide (th ≤ p.probability)).map
    fun p => frequencyToMidiNote p.freq).toFinset

/-- `detectedPitches` array built by `app.handlePitchDetected`: the single
detected pitch with a hard-coded probability of `1.0`. -/
def appCandidates (pitch : ℝ) : List Pitch :=
  [{ freq := pitch, probability := 1 }]

/-- `app.handlePitchDetected(pitch)` (MIDI part): wraps the detected pitch
with probability `1.0` and hands it to `handleDetectedPitches`. -/
noncomputable def handlePitchDetected (conv : MIDIConverter) (noteThreshold : ℚ)
    (pitch : ℝ) : MIDIConverter × List NoteEvent :=
  handleDetectedPitches conv (appCandidates pitch) noteThreshold

/-- Initial contents of the `yinBuffer` `Float32Array` (all zeros). -/
def initYin : List JSVal := List.replicate 1024 (JSVal.num 0)

/-- A 2048-sample frame with unit impulses at samples 0, 1023 and 2046: the
signal is periodic with period 1023, so the first lag whose normalized
difference falls below the threshold is `1023 = N/2 - 1`, the right edge of
the yin buffer. -/
def c4frame : List ℚ :=
  (List.range 2048).map fun i => if i = 0 ∨ i = 1023 ∨ i = 2046 then 1 else 0

/-- A 2048-sample alternating frame with a perturbed first sample
(`x[0] = 2`, then `1, -1, 1, -1, …`): almost periodic with period 2, so the
estimator detects lag 2 with a small but nonzero normalized difference. -/
def c7frame : List ℚ :=
  (List.range 2048).map fun i => if i = 0 then 2 else if i % 2 = 0 then 1 else -1

/-! ### Basic lemmas about the JavaScript number model -/

@[simp] theorem jsAdd_num_num (a b : ℚ) : jsAdd (.num a) (.num b) = .num (a + b) := rfl

@[simp] theorem jsSub_num_num (a b : ℚ) : jsSub (.num a) (.num b) = .num (a - b) := by
  simp [jsSub, jsNeg, jsAdd, sub_eq_add_neg]

@[simp] theorem jsMul_num_num (a b : ℚ) : jsMul (.num a) (.num b) = .num (a * b) := rfl

theorem jsDiv_num_num (a b : ℚ) (hb : b ≠ 0) : jsDiv (.num a) (.num b) = .num (a / b) := by
  simp [jsDiv, hb]

theorem jsDiv_num_zero_pos (a : ℚ) (ha : 0 < a) : jsDiv (.num a) (.num 0) = .posInf := by
  simp [jsDiv, ha]

@[simp] theorem jsMul_zero_posInf : jsMul (.num 0) .posInf = .nan := by
  simp [jsMul]

@[simp] theorem jsLt_num_num (a b : ℚ) : jsLt (.num a) (.num b) = decide (a < b) := rfl

@[simp] theorem jsLt_nan_left (v : JSVal) : jsLt .nan v = false := by
  cases v <;> rfl

theorem readQ_eq (buf : List ℚ) (i : ℕ) (h : i < buf.length) :
    readQ buf i = .num (buf.getD i 0) := by
  simp [readQ, List.getElem?_eq_getElem h]

theorem readV_range_map (f : ℕ → JSVal) (n i : ℕ) (h : i < n) :
    readV ((List.range n).map f) i = f i := by
  simp [readV, List.getElem?_range, h]

/-- Evaluation of a `jsAdd` fold whose summands are all finite numbers. -/
theorem foldl_jsAdd_eq_sum (l : List ℕ) (F : ℕ → JSVal) (g : ℕ → ℚ)
    (hF : ∀ k ∈ l, F k = .num (g k)) :
    ∀ a : ℚ, l.foldl (fun acc k => jsAdd acc (F k)) (.num a) = .num (a + (l.map g).sum) := by
  induction l with
  | nil => intro a; simp
  | cons x xs ih =>
      intro a
      rw [List.foldl_cons, hF x (by simp), jsAdd_num_num,
        ih (fun k hk => hF k (by simp [hk]))]
      simp [add_assoc]

theorem list_range_map_sum (g : ℕ → ℚ) (n : ℕ) :
    ((List.range n).map g).sum = ∑ i ∈ Finset.range n, g i := by
  induction n with
  | zero => simp
  | succ m ih => rw [List.range_succ, Finset.sum_range_succ, ← ih]; simp

/-! ### Lemmas about the YIN steps -/

theorem difference_length (py : List JSVal) (b : List ℚ) :
    (difference py b).length = py.length := by
  simp [difference]

theorem cmnd_length (buf : List JSVal) : (cmnd buf).length = buf.length := by
  simp [cmnd]

theorem difference_entry (py : List JSVal) (b : List ℚ) (tau : ℕ) (h : tau < py.length) :
    readV (difference py b) tau =
      if tau = 0 then JSVal.num 0 else diffAccum b py.length tau := by
  rw [difference]
  simp only [List.length_map]
  exact readV_range_map _ _ _ h

theorem cmnd_entry (buf : List JSVal) (tau : ℕ) (h : tau < buf.length) :
    readV (cmnd buf) tau =
      if tau = 0 then JSVal.num 1
      else jsMul (readV buf tau) (jsDiv (.num (tau : ℚ)) (runningSum buf tau)) := by
  rw [cmnd]
  exact readV_range_map _ _ _ h

theorem diffAccum_eq_sum (buffer : List ℚ) (yinLen tau : ℕ)
    (h : ∀ i, i < yinLen → i + tau < buffer.length) :
    diffAccum buffer yinLen tau =
      .num (∑ i ∈ Finset.range yinLen,
        (buffer.getD i 0 - buffer.getD (i + tau) 0) ^ 2) := by
  have hrange : ∀ i, i < yinLen → i < buffer.length := by
    intro i hi
    exact lt_of_le_of_lt (Nat.le_add_right i tau) (h i hi)
  rw [diffAccum]
  have := foldl_jsAdd_eq_sum (List.range yinLen)
    (fun i => jsMul (jsSub (readQ buffer i) (readQ buffer (i + tau)))
      (jsSub (readQ buffer i) (readQ buffer (i + tau))))
    (fun i => (buffer.getD i 0 - buffer.getD (i + tau) 0) *
      (buffer.getD i 0 - buffer.getD (i + tau) 0))
    (by
      intro k hk
      rw [List.mem_range] at hk
      show jsMul (jsSub (readQ buffer k) (readQ buffer (k + tau)))
          (jsSub (readQ buffer k) (readQ buffer (k + tau))) =
        JSVal.num ((buffer.getD k 0 - buffer.getD (k + tau) 0) *
          (buffer.getD k 0 - buffer.getD (k + tau) 0))
      rw [readQ_eq buffer k (hrange k hk), readQ_eq buffer (k + tau) (h k hk)]
      simp) 0
  rw [this, zero_add, list_range_map_sum]
  congr 1
  exact Finset.sum_congr rfl fun i _ => (sq _).symm

theorem runningSum_eq_sum (buf : List JSVal) (tau : ℕ) (g : ℕ → ℚ)
    (hg : ∀ k, 1 ≤ k → k ≤ tau → readV buf k = .num (g k)) :
    runningSum buf tau = .num (((List.range' 1 tau).map g).sum) := by
  rw [runningSum]
  have := foldl_jsAdd_eq_sum (List.range' 1 tau) (readV buf) g
    (by
      intro k hk
      rw [List.mem_range'] at hk
      obtain ⟨i, hi, rfl⟩ := hk
      exact hg _ (by omega) (by omega)) 0
  rw [this, zero_add]

/-! ### The all-zero (silent) frame -/

theorem initYin_length : initYin.length = 1024 := List.length_replicate 1024 _

theorem getD_replicate_zero (n i : ℕ) : (List.replicate n (0 : ℚ)).getD i 0 = 0 := by
  rcases Nat.lt_or_ge i n with h | h
  · simp [List.getElem?_replicate, h]
  · simp [List.getElem?_replicate, Nat.not_lt.mpr h]

theorem zeros_difference_entry (py : List JSVal) (h : py.length = 1024) (k : ℕ)
    (hk : k < 1024) :
    readV (difference py (List.replicate 2048 (0 : ℚ))) k = JSVal.num 0 := by
  rw [difference_entry py _ k (by omega)]
  rcases Nat.eq_zero_or_pos k with rfl | hk1
  · simp
  · rw [if_neg (by omega), h, diffAccum_eq_sum _ _ _
      (by intro i hi; simp only [List.length_replicate]; omega)]
    refine congrArg JSVal.num (Finset.sum_eq_zero fun i _ => ?_)
    rw [getD_replicate_zero, getD_replicate_zero]
    ring

theorem zeros_runningSum (py : List JSVal) (h : py.length = 1024) (tau : ℕ)
    (htau : tau < 1024) :
    runningSum (difference py (List.replicate 2048 (0 : ℚ))) tau = JSVal.num 0 := by
  rw [runningSum_eq_sum _ _ (fun _ => 0)
    (fun k h1 h2 => zeros_difference_entry py h k (by omega))]
  simp

theorem zeros_cmnd_entry (py : List JSVal) (h : py.length = 1024) (tau : ℕ)
    (h1 : 1 ≤ tau) (h2 : tau < 1024) :
    readV (cmnd (difference py (List.replicate 2048 (0 : ℚ)))) tau = JSVal.nan := by
  rw [cmnd_entry _ _ (by rw [difference_length, h]; omega), if_neg (by omega),
    zeros_runningSum py h tau h2, zeros_difference_entry py h tau h2,
    jsDiv_num_zero_pos _ (by exact_mod_cast h1), jsMul_zero_posInf]

theorem zeros_absoluteThreshold (py : List JSVal) (h : py.length = 1024) :
    absoluteThreshold (cmnd (difference py (List.replicate 2048 (0 : ℚ)))) = -1 := by
  rw [absoluteThreshold]
  rw [cmnd_length, difference_length, h]
  have : (List.range' 1 (1024 - 1)).find?
      (fun tau => jsLt (readV (cmnd (difference py (List.replicate 2048 (0 : ℚ)))) tau)
        (.num YIN_THRESHOLD)) = none := by
    rw [List.find?_eq_none]
    intro x hx
    rw [List.mem_range'] at hx
    obtain ⟨i, hi, rfl⟩ := hx
    rw [zeros_cmnd_entry py h _ (by omega) (by omega)]
    simp
  rw [this]

theorem zeros_cmndZeroDivision (py : List JSVal) (h : py.length = 1024) :
    cmndZeroDivision (difference py (List.replicate 2048 (0 : ℚ))) = true := by
  rw [cmndZeroDivision, List.any_eq_true]
  refine ⟨1, ?_, ?_⟩
  · rw [difference_length, h, List.mem_range']
    exact ⟨0, by omega, by omega⟩
  · rw [zeros_runningSum py h 1 (by omega)]
    simp

theorem zeros_detectPitch (py : List JSVal) (h : py.length = 1024) :
    detectPitch py (List.replicate 2048 (0 : ℚ)) = none := by
  rw [detectPitch, detectPitchAux]
  simp only [zeros_absoluteThreshold py h, if_pos]

theorem zeros_detectPitchAux (py : List JSVal) (h : py.length = 1024) :
    detectPitchAux py (List.replicate 2048 (0 : ℚ)) =
      (cmnd (difference py (List.replicate 2048 0)), none) := by
  rw [detectPitchAux]
  simp only [zeros_absoluteThreshold py h, if_pos]

theorem processAudio_ok (st : AudioProcessorState) (input : List ℚ)
    (h : ¬st.audioBuffer.length < input.length) :
    processAudio st input =
      .ok ({ audioBuffer := input ++ st.audioBuffer.drop input.length,
             yinBuffer :=
               (detectPitchAux st.yinBuffer (input ++ st.audioBuffer.drop input.length)).1 },
           (detectPitchAux st.yinBuffer (input ++ st.audioBuffer.drop input.length)).2) := by
  rw [processAudio, setTypedArray, if_neg h]

/-! ### Claims C3, C8, C9 -/

/-- C3 counterexample: the claim says that on a silent frame the
cumulative-mean-normalized-difference step "performs no unguarded division";
in fact the statement `yinBuffer[tau] *= tau / runningSum` is executed with
`runningSum = 0` (the division is completely unguarded), even though the
estimate still comes out as `null`. -/
theorem c3_counterexample :
    cmndZeroDivision (difference initYin (List.replicate 2048 (0 : ℚ))) = true
    ∧ detectPitch initYin (List.replicate 2048 (0 : ℚ)) = none :=
  ⟨zeros_cmndZeroDivision initYin initYin_length,
   zeros_detectPitch initYin initYin_length⟩

/-- C3 (amended): on an all-zero 2048-sample frame (for any prior contents of
the yin buffer) the estimator returns `null` — no frequency and no
division-by-zero *fault* — but the normalization step does divide `tau` by a
zero running sum: the unguarded division yields `Infinity`, the entries
`0 · Infinity = NaN` fail every threshold comparison, and no confidence value
is produced at all. -/
theorem c3_thm (py : List JSVal) (h : py.length = BUFFER_SIZE / 2) :
    detectPitch py (List.replicate BUFFER_SIZE (0 : ℚ)) = none
    ∧ cmndZeroDivision (difference py (List.replicate BUFFER_SIZE (0 : ℚ))) = true
    ∧ ∀ tau, 1 ≤ tau → tau < BUFFER_SIZE / 2 →
        readV (cmnd (difference py (List.replicate BUFFER_SIZE (0 : ℚ)))) tau = JSVal.nan := by
  have h2 : py.length = 1024 := h
  refine ⟨zeros_detectPitch py h2, zeros_cmndZeroDivision py h2, ?_⟩
  intro tau h1 hlt
  exact zeros_cmnd_entry py h2 tau h1 hlt

/-- C3 witness: instantiation at the freshly initialized all-zero yin
buffer. -/
theorem c3_witness :
    initYin.length = BUFFER_SIZE / 2
    ∧ (detectPitch initYin (List.replicate BUFFER_SIZE (0 : ℚ)) = none
       ∧ cmndZeroDivision (difference initYin (List.replicate BUFFER_SIZE (0 : ℚ))) = true
       ∧ ∀ tau, 1 ≤ tau → tau < BUFFER_SIZE / 2 →
           readV (cmnd (difference initYin (List.replicate BUFFER_SIZE (0 : ℚ)))) tau
             = JSVal.nan) :=
  ⟨initYin_length, c3_thm initYin initYin_length⟩

/-- C8 counterexample: a one-sample frame (length `1 ≠ 2048 = BUFFER_SIZE`)
is NOT rejected: `processAudio` copies it over the front of the retained
buffer and runs pitch detection on the mixture, returning normally. -/
theorem c8_counterexample :
    ([(0 : ℚ)].length ≠ BUFFER_SIZE)
    ∧ processAudio ⟨List.replicate 2048 0, initYin⟩ [0] =
        .ok (⟨List.replicate 2048 0,
              cmnd (difference initYin (List.replicate 2048 0))⟩, none) := by
  refine ⟨by decide, ?_⟩
  have hbuf : setTypedArray (List.replicate 2048 (0 : ℚ)) [0] =
      .ok (List.replicate 2048 0) := by
    rw [setTypedArray, if_neg (by rw [List.length_replicate]; decide)]
    exact congrArg Except.ok (by
      rw [show List.replicate 2048 (0 : ℚ) = 0 :: List.replicate 2047 0 from rfl]
      rfl)
  simp only [processAudio, hbuf, zeros_detectPitchAux initYin initYin_length]

/-- C8 (amended): `processAudio` performs no frame-length validation.  A
frame longer than the 2048-sample buffer makes `Float32Array.set` throw a
`RangeError` before anything is processed; a frame shorter than the buffer is
not rejected — it is copied over the front of the retained buffer and
processed together with the stale remainder of the previous frame. -/
theorem c8_thm (st : AudioProcessorState) (input : List ℚ) :
    (st.audioBuffer.length < input.length → processAudio st input = .error ())
    ∧ (input.length ≤ st.audioBuffer.length →
        processAudio st input =
          .ok ({ audioBuffer := input ++ st.audioBuffer.drop input.length,
                 yinBuffer :=
                   (detectPitchAux st.yinBuffer
                     (input ++ st.audioBuffer.drop input.length)).1 },
               (detectPitchAux st.yinBuffer
                 (input ++ st.audioBuffer.drop input.length)).2)) := by
  constructor
  · intro hl
    rw [processAudio, setTypedArray, if_pos hl]
  · intro hl
    exact processAudio_ok st input (by omega)

/-- C8 witness: a 2049-sample frame handed to a processor holding a
2048-sample buffer triggers the thrown `RangeError`. -/
theorem c8_witness :
    (⟨List.replicate 2048 0, initYin⟩ : AudioProcessorState).audioBuffer.length
        < (List.replicate 2049 (0 : ℚ)).length
    ∧ processAudio ⟨List.replicate 2048 0, initYin⟩ (List.replicate 2049 0) =
        .error () := by
  have hlen : (List.replicate 2048 (0 : ℚ)).length < (List.replicate 2049 (0 : ℚ)).length := by
    rw [List.length_replicate, List.length_replicate]; decide
  exact ⟨hlen, (c8_thm _ _).1 hlen⟩

/-- C9: for every 2048-sample frame, the difference step is independent of
the previous contents of the yin buffer (each invocation starts from a
freshly zeroed buffer), and for every lag `tau` in `[1, N/2)` it computes
`d(tau) = Σ_{i<N/2} (x[i] - x[i+tau])²`. -/
theorem c9_thm (x : List ℚ) (py py2 : List JSVal) (hx : x.length = BUFFER_SIZE)
    (h1 : py.length = BUFFER_SIZE / 2) (h2 : py2.length = BUFFER_SIZE / 2) :
    difference py x = difference py2 x
    ∧ ∀ tau, 1 ≤ tau → tau < BUFFER_SIZE / 2 →
        readV (difference py x) tau =
          .num (∑ i ∈ Finset.range (BUFFER_SIZE / 2),
            (x.getD i 0 - x.getD (i + tau) 0) ^ 2) := by
  have e : BUFFER_SIZE = 2048 := rfl
  have e2 : BUFFER_SIZE / 2 = 1024 := rfl
  constructor
  · rw [difference, difference]
    simp only [List.length_map, h1, h2]
  · intro tau ht1 ht2
    rw [difference_entry py x tau (by omega), if_neg (by omega), h1,
      diffAccum_eq_sum x _ tau (by intro i hi; rw [e2] at hi; omega)]

/-- C9 witness: instantiation at the all-zero frame and two different prior
yin-buffer contents. -/
theorem c9_witness :
    (List.replicate 2048 (0 : ℚ)).length = BUFFER_SIZE
    ∧ difference initYin (List.replicate 2048 (0 : ℚ)) =
        difference (List.replicate 1024 JSVal.nan) (List.replicate 2048 0) :=
  ⟨List.length_replicate 2048 _,
   (c9_thm _ initYin (List.replicate 1024 JSVal.nan) (List.length_replicate 2048 _)
     initYin_length (List.length_replicate 1024 _)).1⟩

/-! ### Claim C4: parabolic interpolation at the buffer boundary -/

theorem readVZ_in (buf : List JSVal) (i : ℤ) (h0 : 0 ≤ i) (h1 : i < (buf.length : ℤ)) :
    readVZ buf i = readV buf i.toNat := by
  rw [readVZ, if_pos ⟨h0, h1⟩]

theorem readVZ_out (buf : List JSVal) (i : ℤ) (h : ¬(0 ≤ i ∧ i < (buf.length : ℤ))) :
    readVZ buf i = .nan := by
  rw [readVZ, if_neg h]

theorem runningSum_succ (buf : List JSVal) (tau : ℕ) :
    runningSum buf (tau + 1) = jsAdd (runningSum buf tau) (readV buf (tau + 1)) := by
  rw [runningSum, runningSum, List.range'_concat, List.foldl_append,
    show 1 + 1 * tau = tau + 1 from by omega]
  rfl

theorem getD_range_map (f : ℕ → ℚ) (n i : ℕ) (h : i < n) :
    ((List.range n).map f).getD i 0 = f i := by
  simp [List.getElem?_range, h]

theorem find?_singleton_of_pos {α : Type} (p : α → Bool) (a : α) (h : p a = true) :
    List.find? p [a] = some a := List.find?_cons_of_pos [] h

theorem c4frame_length : c4frame.length = 2048 := by
  rw [c4frame, List.length_map, List.length_range]

theorem c4frame_getD (i : ℕ) (h : i < 2048) :
    c4frame.getD i 0 = if i = 0 ∨ i = 1023 ∨ i = 2046 then 1 else 0 := by
  rw [c4frame, getD_range_map _ _ _ h]

theorem c4_sum (tau : ℕ) (h1 : 1 ≤ tau) (h2 : tau ≤ 1022) :
    ∑ i ∈ Finset.range 1024, (c4frame.getD i 0 - c4frame.getD (i + tau) 0) ^ 2 = 3 := by
  have hval : ∀ i ∈ Finset.range 1024,
      (c4frame.getD i 0 - c4frame.getD (i + tau) 0) ^ 2 =
        ((if i = 0 then 1 else 0) + (if i = 1023 - tau then 1 else 0) +
          (if i = 1023 then 1 else 0) : ℚ) := by
    intro i hi
    rw [Finset.mem_range] at hi
    rw [c4frame_getD i (by omega), c4frame_getD (i + tau) (by omega)]
    by_cases h0 : i = 0
    · rw [if_pos (Or.inl h0),
        if_neg (by omega : ¬(i + tau = 0 ∨ i + tau = 1023 ∨ i + tau = 2046)),
        if_pos h0, if_neg (by omega : ¬i = 1023 - tau), if_neg (by omega : ¬i = 1023)]
      norm_num
    · by_cases hm : i = 1023 - tau
      · rw [if_neg (by omega : ¬(i = 0 ∨ i = 1023 ∨ i = 2046)),
          if_pos (by omega : i + tau = 0 ∨ i + tau = 1023 ∨ i + tau = 2046),
          if_neg h0, if_pos hm, if_neg (by omega : ¬i = 1023)]
        norm_num
      · by_cases hb : i = 1023
        · rw [if_pos (by omega : i = 0 ∨ i = 1023 ∨ i = 2046),
            if_neg (by omega : ¬(i + tau = 0 ∨ i + tau = 1023 ∨ i + tau = 2046)),
            if_neg h0, if_neg hm, if_pos hb]
          norm_num
        · rw [if_neg (by omega : ¬(i = 0 ∨ i = 1023 ∨ i = 2046)),
            if_neg (by omega : ¬(i + tau = 0 ∨ i + tau = 1023 ∨ i + tau = 2046)),
            if_neg h0, if_neg hm, if_neg hb]
          norm_num
  rw [Finset.sum_congr rfl hval, Finset.sum_add_distrib, Finset.sum_add_distrib,
    Finset.sum_ite_eq' (Finset.range 1024) 0 (fun _ => (1 : ℚ)),
    Finset.sum_ite_eq' (Finset.range 1024) (1023 - tau) (fun _ => (1 : ℚ)),
    Finset.sum_ite_eq' (Finset.range 1024) 1023 (fun _ => (1 : ℚ)),
    if_pos (Finset.mem_range.mpr (by omega : (0 : ℕ) < 1024)),
    if_pos (Finset.mem_range.mpr (by omega : 1023 - tau < 1024)),
    if_pos (Finset.mem_range.mpr (by omega : (1023 : ℕ) < 1024))]
  norm_num

theorem c4_sum_boundary :
    ∑ i ∈ Finset.range 1024, (c4frame.getD i 0 - c4frame.getD (i + 1023) 0) ^ 2 = 0 := by
  refine Finset.sum_eq_zero fun i hi => ?_
  rw [Finset.mem_range] at hi
  rw [c4frame_getD i (by omega), c4frame_getD (i + 1023) (by omega)]
  by_cases h0 : i = 0
  · rw [if_pos (Or.inl h0),
      if_pos (by omega : i + 1023 = 0 ∨ i + 1023 = 1023 ∨ i + 1023 = 2046)]
    norm_num
  · by_cases hb : i = 1023
    · rw [if_pos (by omega : i = 0 ∨ i = 1023 ∨ i = 2046),
        if_pos (by omega : i + 1023 = 0 ∨ i + 1023 = 1023 ∨ i + 1023 = 2046)]
      norm_num
    · rw [if_neg (by omega : ¬(i = 0 ∨ i = 1023 ∨ i = 2046)),
        if_neg (by omega : ¬(i + 1023 = 0 ∨ i + 1023 = 1023 ∨ i + 1023 = 2046))]
      norm_num

theorem c4_d_entry (tau : ℕ) (h1 : 1 ≤ tau) (h2 : tau ≤ 1022) :
    readV (difference initYin c4frame) tau = .num 3 := by
  rw [difference_entry initYin c4frame tau (by rw [initYin_length]; omega),
    if_neg (by omega), initYin_length,
    diffAccum_eq_sum c4frame 1024 tau
      (by intro i hi; rw [c4frame_length]; omega),
    c4_sum tau h1 h2]

theorem c4_d_boundary : readV (difference initYin c4frame) 1023 = .num 0 := by
  rw [difference_entry initYin c4frame 1023 (by rw [initYin_length]; omega),
    if_neg (by omega), initYin_length,
    diffAccum_eq_sum c4frame 1024 1023
      (by intro i hi; rw [c4frame_length]; omega),
    c4_sum_boundary]

theorem c4_runningSum (tau : ℕ) (h2 : tau ≤ 1022) :
    runningSum (difference initYin c4frame) tau = .num (3 * tau) := by
  induction tau with
  | zero => rw [runningSum]; norm_num
  | succ k ih =>
      rw [runningSum_succ, ih (by omega), c4_d_entry (k + 1) (by omega) (by omega),
        jsAdd_num_num]
      congr 1
      push_cast
      ring

theorem c4_runningSum_boundary :
    runningSum (difference initYin c4frame) 1023 = .num 3066 := by
  rw [show (1023 : ℕ) = 1022 + 1 from rfl, runningSum_succ,
    c4_runningSum 1022 (le_refl _), c4_d_boundary, jsAdd_num_num]
  norm_num

theorem c4_cm_entry (tau : ℕ) (h1 : 1 ≤ tau) (h2 : tau ≤ 1022) :
    readV (cmnd (difference initYin c4frame)) tau = .num 1 := by
  have htq : (0 : ℚ) < (tau : ℚ) := by exact_mod_cast h1
  rw [cmnd_entry _ tau (by rw [difference_length, initYin_length]; omega),
    if_neg (by omega), c4_d_entry tau h1 h2, c4_runningSum tau h2,
    jsDiv_num_num _ _ (by positivity), jsMul_num_num]
  congr 1
  rw [div_mul_eq_div_div_swap]
  field_simp

theorem c4_cm_boundary :
    readV (cmnd (difference initYin c4frame)) 1023 = .num 0 := by
  rw [cmnd_entry _ 1023 (by rw [difference_length, initYin_length]; omega),
    if_neg (by omega), c4_d_boundary, c4_runningSum_boundary,
    jsDiv_num_num _ _ (by norm_num), jsMul_num_num]
  norm_num

theorem c4_threshold :
    absoluteThreshold (cmnd (difference initYin c4frame)) = 1023 := by
  rw [absoluteThreshold, cmnd_length, difference_length, initYin_length,
    show (1024 - 1 : ℕ) = 1023 from rfl,
    show (1023 : ℕ) = 1022 + 1 from rfl, List.range'_concat, List.find?_append]
  have hnone : (List.range' 1 1022).find?
      (fun tau => jsLt (readV (cmnd (difference initYin c4frame)) tau)
        (.num YIN_THRESHOLD)) = none := by
    rw [List.find?_eq_none]
    intro x hx
    rw [List.mem_range'] at hx
    obtain ⟨i, hi, rfl⟩ := hx
    show ¬jsLt (readV (cmnd (difference initYin c4frame)) (1 + 1 * i))
      (.num YIN_THRESHOLD) = true
    rw [c4_cm_entry _ (by omega) (by omega), jsLt_num_num, YIN_THRESHOLD]
    simp only [decide_eq_true_eq]
    norm_num
  rw [hnone]
  have hpos : (fun tau => jsLt (readV (cmnd (difference initYin c4frame)) tau)
      (.num YIN_THRESHOLD)) (1 + 1 * 1022) = true := by
    show jsLt (readV (cmnd (difference initYin c4frame)) (1 + 1 * 1022))
      (.num YIN_THRESHOLD) = true
    rw [show 1 + 1 * 1022 = 1023 from rfl, c4_cm_boundary, jsLt_num_num, YIN_THRESHOLD]
    simp only [decide_eq_true_eq]
    norm_num
  rw [Option.none_or,
    find?_singleton_of_pos
      (fun tau => jsLt (readV (cmnd (difference initYin c4frame)) tau)
        (.num YIN_THRESHOLD)) (1 + 1 * 1022) hpos]
  show (descend (cmnd (difference initYin c4frame)) (1 + 1 * 1022) : ℤ) = 1023
  rw [show 1 + 1 * 1022 = 1023 from rfl, descend,
    dif_neg (by
      rintro ⟨hc, -⟩
      rw [cmnd_length, difference_length, initYin_length] at hc
      omega)]
  norm_num

theorem c4_parabolic :
    parabolicInterpolation (cmnd (difference initYin c4frame)) 1023 = JSVal.nan := by
  have hlen : (cmnd (difference initYin c4frame)).length = 1024 := by
    rw [cmnd_length, difference_length, initYin_length]
  simp only [parabolicInterpolation]
  rw [readVZ_out (cmnd (difference initYin c4frame)) (1023 + 1)
      (by rw [hlen]; rintro ⟨-, hc⟩; omega),
    readVZ_in (cmnd (difference initYin c4frame)) (1023 - 1) (by omega)
      (by rw [hlen]; omega),
    readVZ_in (cmnd (difference initYin c4frame)) 1023 (by omega)
      (by rw [hlen]; omega),
    show ((1023 : ℤ) - 1).toNat = 1022 from rfl,
    show ((1023 : ℤ)).toNat = 1023 from rfl,
    c4_cm_entry 1022 (by omega) (by omega), c4_cm_boundary]
  rfl

theorem detectPitchAux_eq (py : List JSVal) (bv : List ℚ) :
    detectPitchAux py bv =
      (cmnd (difference py bv),
       if absoluteThreshold (cmnd (difference py bv)) = -1 then none
       else some (jsDiv (.num SAMPLE_RATE)
         (parabolicInterpolation (cmnd (difference py bv))
           (absoluteThreshold (cmnd (difference py bv)))))) := by
  show (if absoluteThreshold (cmnd (difference py bv)) = -1
      then (cmnd (difference py bv), none)
      else (cmnd (difference py bv),
        some (jsDiv (.num SAMPLE_RATE)
          (parabolicInterpolation (cmnd (difference py bv))
            (absoluteThreshold (cmnd (difference py bv))))))) = _
  by_cases h : absoluteThreshold (cmnd (difference py bv)) = -1
  · rw [if_pos h, if_pos h]
  · rw [if_neg h, if_neg h]

theorem detectPitch_eq (py : List JSVal) (bv : List ℚ) :
    detectPitch py bv =
      if absoluteThreshold (cmnd (difference py bv)) = -1 then none
      else some (jsDiv (.num SAMPLE_RATE)
        (parabolicInterpolation (cmnd (difference py bv))
          (absoluteThreshold (cmnd (difference py bv))))) := by
  rw [detectPitch, detectPitchAux_eq]

theorem c4_detect : detectPitch initYin c4frame = some JSVal.nan := by
  rw [detectPitch_eq, c4_threshold, if_neg (by norm_num : ¬(1023 : ℤ) = -1),
    c4_parabolic]
  rfl

/-- C4 counterexample: on the concrete 2048-sample frame with impulses at
samples 0, 1023 and 2046 the threshold search returns `tau = 1023 = N/2 - 1`,
and `parabolicInterpolation` is applied anyway — the claim says interpolation
is skipped at the boundary — reading the out-of-range index `1024`
(`undefined`, i.e. `NaN`), so the returned pitch is `NaN`. -/
theorem c4_counterexample :
    absoluteThreshold (cmnd (difference initYin c4frame)) = 1023
    ∧ parabolicOutOfRange (cmnd (difference initYin c4frame)) 1023 = true
    ∧ detectPitch initYin c4frame = some JSVal.nan := by
  refine ⟨c4_threshold, ?_, c4_detect⟩
  rw [parabolicOutOfRange, cmnd_length, difference_length, initYin_length]
  decide

theorem descend_bounds (buf : List JSVal) : ∀ tau,
    tau ≤ descend buf tau ∧ (tau < buf.length → descend buf tau < buf.length) := by
  have H : ∀ n tau, buf.length - tau ≤ n →
      tau ≤ descend buf tau ∧ (tau < buf.length → descend buf tau < buf.length) := by
    intro n
    induction n with
    | zero =>
        intro tau hn
        rw [descend]
        split
        · next h =>
            obtain ⟨h1, -⟩ := h
            exact absurd hn (by omega)
        · exact ⟨le_refl _, fun hlt => hlt⟩
    | succ m ih =>
        intro tau hn
        rw [descend]
        split
        · next h =>
            obtain ⟨h1, -⟩ := h
            obtain ⟨ihge, ihlt⟩ := ih (tau + 1) (by omega)
            exact ⟨by omega, fun _ => ihlt (by omega)⟩
        · exact ⟨le_refl _, fun hlt => hlt⟩
  intro tau
  exact H (buf.length - tau) tau (le_refl _)

theorem descend_ge (buf : List JSVal) (tau : ℕ) : tau ≤ descend buf tau :=
  (descend_bounds buf tau).1

theorem descend_lt (buf : List JSVal) (tau : ℕ) :
    tau < buf.length → descend buf tau < buf.length :=
  (descend_bounds buf tau).2

theorem absoluteThreshold_spec (buf : List JSVal) :
    absoluteThreshold buf = -1 ∨
      (1 ≤ absoluteThreshold buf ∧ absoluteThreshold buf < (buf.length : ℤ)) := by
  rw [absoluteThreshold]
  rcases hf : (List.range' 1 (buf.length - 1)).find?
      (fun tau => jsLt (readV buf tau) (.num YIN_THRESHOLD)) with _ | t0
  · exact Or.inl rfl
  · right
    have hmem := List.mem_of_find?_eq_some hf
    rw [List.mem_range'] at hmem
    obtain ⟨i, hi, rfl⟩ := hmem
    have h2 : 1 + 1 * i < buf.length := by omega
    have hg := descend_ge buf (1 + 1 * i)
    have hl := descend_lt buf (1 + 1 * i) h2
    show (1 : ℤ) ≤ (descend buf (1 + 1 * i) : ℤ)
      ∧ (descend buf (1 + 1 * i) : ℤ) < (buf.length : ℤ)
    constructor
    · exact_mod_cast le_trans (by omega : 1 ≤ 1 + 1 * i) hg
    · exact_mod_cast hl

/-- C4 (amended): whenever the threshold search succeeds it returns a lag
`tau` with `1 ≤ tau < N/2`, and `parabolicInterpolation` is then applied
unconditionally — the code has no boundary guard.  Its three reads
`tau - 1`, `tau`, `tau + 1` stay inside the valid range exactly when
`tau < N/2 - 1`; at `tau = N/2 - 1` (reachable — see the counterexample) the
right neighbor is read out of range, producing `undefined`/`NaN` and a `NaN`
pitch. -/
theorem c4_thm (buf : List JSVal) (h : absoluteThreshold buf ≠ -1) :
    1 ≤ absoluteThreshold buf ∧ absoluteThreshold buf < (buf.length : ℤ)
    ∧ (parabolicOutOfRange buf (absoluteThreshold buf) = true ↔
        absoluteThreshold buf = (buf.length : ℤ) - 1) := by
  rcases absoluteThreshold_spec buf with he | ⟨h1, h2⟩
  · exact absurd he h
  · refine ⟨h1, h2, ?_⟩
    rw [parabolicOutOfRange, Bool.not_and, Bool.or_eq_true, Bool.not_eq_true',
      Bool.not_eq_true', decide_eq_false_iff_not, decide_eq_false_iff_not]
    omega

/-- C4 witness: the amended characterization instantiated at the impulse
frame of the counterexample, where the returned lag is exactly
`N/2 - 1 = 1023` and the out-of-range read does occur. -/
theorem c4_witness :
    absoluteThreshold (cmnd (difference initYin c4frame)) ≠ -1
    ∧ (1 ≤ absoluteThreshold (cmnd (difference initYin c4frame))
       ∧ absoluteThreshold (cmnd (difference initYin c4frame))
           < ((cmnd (difference initYin c4frame)).length : ℤ)
       ∧ (parabolicOutOfRange (cmnd (difference initYin c4frame))
             (absoluteThreshold (cmnd (difference initYin c4frame))) = true ↔
           absoluteThreshold (cmnd (difference initYin c4frame))
             = ((cmnd (difference initYin c4frame)).length : ℤ) - 1)) := by
  have hne : absoluteThreshold (cmnd (difference initYin c4frame)) ≠ -1 := by
    rw [c4_threshold]
    norm_num
  exact ⟨hne, c4_thm _ hne⟩

/-! ### Claim C7: no confidence is reported -/

theorem find?_cons_of_neg2 {α : Type} (p : α → Bool) (a : α) (l : List α)
    (h : p a = false) : List.find? p (a :: l) = List.find? p l :=
  List.find?_cons_of_neg l (by simp [h])

theorem find?_cons_of_pos2 {α : Type} (p : α → Bool) (a : α) (l : List α)
    (h : p a = true) : List.find? p (a :: l) = some a :=
  List.find?_cons_of_pos l h

theorem runningSum_zero (buf : List JSVal) : runningSum buf 0 = .num 0 := rfl

theorem c7frame_length : c7frame.length = 2048 := by
  rw [c7frame, List.length_map, List.length_range]

theorem c7frame_getD (i : ℕ) (h : i < 2048) :
    c7frame.getD i 0 = if i = 0 then 2 else if i % 2 = 0 then 1 else -1 := by
  rw [c7frame, getD_range_map _ _ _ h]

theorem c7_sum1 :
    ∑ i ∈ Finset.range 1024, (c7frame.getD i 0 - c7frame.getD (i + 1) 0) ^ 2 = 4101 := by
  have hval : ∀ i ∈ Finset.range 1024,
      (c7frame.getD i 0 - c7frame.getD (i + 1) 0) ^ 2 =
        ((if i = 0 then 5 else 0) + 4 : ℚ) := by
    intro i hi
    rw [Finset.mem_range] at hi
    rw [c7frame_getD i (by omega), c7frame_getD (i + 1) (by omega)]
    by_cases h0 : i = 0
    · rw [if_pos h0, if_neg (by omega : ¬i + 1 = 0),
        if_neg (by omega : ¬(i + 1) % 2 = 0), if_pos h0]
      norm_num
    · by_cases hp : i % 2 = 0
      · rw [if_neg h0, if_pos hp, if_neg (by omega : ¬i + 1 = 0),
          if_neg (by omega : ¬(i + 1) % 2 = 0), if_neg h0]
        norm_num
      · rw [if_neg h0, if_neg hp, if_neg (by omega : ¬i + 1 = 0),
          if_pos (by omega : (i + 1) % 2 = 0), if_neg h0]
        norm_num
  rw [Finset.sum_congr rfl hval, Finset.sum_add_distrib,
    Finset.sum_ite_eq' (Finset.range 1024) 0 (fun _ => (5 : ℚ)),
    if_pos (Finset.mem_range.mpr (by omega : (0 : ℕ) < 1024)), Finset.sum_const]
  norm_num

theorem c7_sum2 :
    ∑ i ∈ Finset.range 1024, (c7frame.getD i 0 - c7frame.getD (i + 2) 0) ^ 2 = 1 := by
  have hval : ∀ i ∈ Finset.range 1024,
      (c7frame.getD i 0 - c7frame.getD (i + 2) 0) ^ 2 =
        ((if i = 0 then 1 else 0) : ℚ) := by
    intro i hi
    rw [Finset.mem_range] at hi
    rw [c7frame_getD i (by omega), c7frame_getD (i + 2) (by omega)]
    by_cases h0 : i = 0
    · rw [if_pos h0, if_neg (by omega : ¬i + 2 = 0),
        if_pos (by omega : (i + 2) % 2 = 0), if_pos h0]
      norm_num
    · by_cases hp : i % 2 = 0
      · rw [if_neg h0, if_pos hp, if_neg (by omega : ¬i + 2 = 0),
          if_pos (by omega : (i + 2) % 2 = 0), if_neg h0]
        norm_num
      · rw [if_neg h0, if_neg hp, if_neg (by omega : ¬i + 2 = 0),
          if_neg (by omega : ¬(i + 2) % 2 = 0), if_neg h0]
        norm_num
  rw [Finset.sum_congr rfl hval,
    Finset.sum_ite_eq' (Finset.range 1024) 0 (fun _ => (1 : ℚ)),
    if_pos (Finset.mem_range.mpr (by omega : (0 : ℕ) < 1024))]

theorem c7_sum3 :
    ∑ i ∈ Finset.range 1024, (c7frame.getD i 0 - c7frame.getD (i + 3) 0) ^ 2 = 4101 := by
  have hval : ∀ i ∈ Finset.range 1024,
      (c7frame.getD i 0 - c7frame.getD (i + 3) 0) ^ 2 =
        ((if i = 0 then 5 else 0) + 4 : ℚ) := by
    intro i hi
    rw [Finset.mem_range] at hi
    rw [c7frame_getD i (by omega), c7frame_getD (i + 3) (by omega)]
    by_cases h0 : i = 0
    · rw [if_pos h0, if_neg (by omega : ¬i + 3 = 0),
        if_neg (by omega : ¬(i + 3) % 2 = 0), if_pos h0]
      norm_num
    · by_cases hp : i % 2 = 0
      · rw [if_neg h0, if_pos hp, if_neg (by omega : ¬i + 3 = 0),
          if_neg (by omega : ¬(i + 3) % 2 = 0), if_neg h0]
        norm_num
      · rw [if_neg h0, if_neg hp, if_neg (by omega : ¬i + 3 = 0),
          if_pos (by omega : (i + 3) % 2 = 0), if_neg h0]
        norm_num
  rw [Finset.sum_congr rfl hval, Finset.sum_add_distrib,
    Finset.sum_ite_eq' (Finset.range 1024) 0 (fun _ => (5 : ℚ)),
    if_pos (Finset.mem_range.mpr (by omega : (0 : ℕ) < 1024)), Finset.sum_const]
  norm_num

theorem c7_d1 : readV (difference initYin c7frame) 1 = .num 4101 := by
  rw [difference_entry initYin c7frame 1 (by rw [initYin_length]; omega),
    if_neg (by omega), initYin_length,
    diffAccum_eq_sum c7frame 1024 1 (by intro i hi; rw [c7frame_length]; omega),
    c7_sum1]

theorem c7_d2 : readV (difference initYin c7frame) 2 = .num 1 := by
  rw [difference_entry initYin c7frame 2 (by rw [initYin_length]; omega),
    if_neg (by omega), initYin_length,
    diffAccum_eq_sum c7frame 1024 2 (by intro i hi; rw [c7frame_length]; omega),
    c7_sum2]

theorem c7_d3 : readV (difference initYin c7frame) 3 = .num 4101 := by
  rw [difference_entry initYin c7frame 3 (by rw [initYin_length]; omega),
    if_neg (by omega), initYin_length,
    diffAccum_eq_sum c7frame 1024 3 (by intro i hi; rw [c7frame_length]; omega),
    c7_sum3]

theorem c7_rs1 : runningSum (difference initYin c7frame) 1 = .num 4101 := by
  rw [show (1 : ℕ) = 0 + 1 from rfl, runningSum_succ, runningSum_zero, c7_d1,
    jsAdd_num_num]
  norm_num

theorem c7_rs2 : runningSum (difference initYin c7frame) 2 = .num 4102 := by
  rw [show (2 : ℕ) = 1 + 1 from rfl, runningSum_succ, c7_rs1, c7_d2, jsAdd_num_num]
  norm_num

theorem c7_rs3 : runningSum (difference initYin c7frame) 3 = .num 8203 := by
  rw [show (3 : ℕ) = 2 + 1 from rfl, runningSum_succ, c7_rs2, c7_d3, jsAdd_num_num]
  norm_num

theorem c7_cm1 : readV (cmnd (difference initYin c7frame)) 1 = .num 1 := by
  rw [cmnd_entry _ 1 (by rw [difference_length, initYin_length]; omega),
    if_neg (by omega), c7_d1, c7_rs1, jsDiv_num_num _ _ (by norm_num), jsMul_num_num]
  norm_num

theorem c7_cm2 : readV (cmnd (difference initYin c7frame)) 2 = .num (1 / 2051) := by
  rw [cmnd_entry _ 2 (by rw [difference_length, initYin_length]; omega),
    if_neg (by omega), c7_d2, c7_rs2, jsDiv_num_num _ _ (by norm_num), jsMul_num_num]
  norm_num

theorem c7_cm3 : readV (cmnd (difference initYin c7frame)) 3 = .num (12303 / 8203) := by
  rw [cmnd_entry _ 3 (by rw [difference_length, initYin_length]; omega),
    if_neg (by omega), c7_d3, c7_rs3, jsDiv_num_num _ _ (by norm_num), jsMul_num_num]
  norm_num

theorem c7_threshold :
    absoluteThreshold (cmnd (difference initYin c7frame)) = 2 := by
  rw [absoluteThreshold, cmnd_length, difference_length, initYin_length,
    show (1024 - 1 : ℕ) = 1023 from rfl,
    show (1023 : ℕ) = 1022 + 1 from rfl, List.range'_succ,
    show (1022 : ℕ) = 1021 + 1 from rfl, List.range'_succ,
    find?_cons_of_neg2
      (fun tau => jsLt (readV (cmnd (difference initYin c7frame)) tau)
        (.num YIN_THRESHOLD)) 1 _
      (by
        show jsLt (readV (cmnd (difference initYin c7frame)) 1)
          (.num YIN_THRESHOLD) = false
        rw [c7_cm1, jsLt_num_num, YIN_THRESHOLD]
        simp only [decide_eq_false_iff_not]
        norm_num),
    find?_cons_of_pos2
      (fun tau => jsLt (readV (cmnd (difference initYin c7frame)) tau)
        (.num YIN_THRESHOLD)) (1 + 1) _
      (by
        show jsLt (readV (cmnd (difference initYin c7frame)) (1 + 1))
          (.num YIN_THRESHOLD) = true
        rw [show (1 + 1 : ℕ) = 2 from rfl, c7_cm2, jsLt_num_num, YIN_THRESHOLD]
        simp only [decide_eq_true_eq]
        norm_num)]
  show (descend (cmnd (difference initYin c7frame)) (1 + 1) : ℤ) = 2
  rw [show (1 + 1 : ℕ) = 2 from rfl, descend,
    dif_neg (by
      rintro ⟨-, hb⟩
      rw [show (2 + 1 : ℕ) = 3 from rfl, c7_cm3, c7_cm2, jsLt_num_num] at hb
      rw [decide_eq_true_eq] at hb
      norm_num at hb)]
  norm_num

theorem c7_parabolic :
    parabolicInterpolation (cmnd (difference initYin c7frame)) 2 =
      .num (38965 / 20508) := by
  have hlen : (cmnd (difference initYin c7frame)).length = 1024 := by
    rw [cmnd_length, difference_length, initYin_length]
  simp only [parabolicInterpolation]
  rw [readVZ_in (cmnd (difference initYin c7frame)) (2 - 1) (by omega)
      (by rw [hlen]; omega),
    readVZ_in (cmnd (difference initYin c7frame)) 2 (by omega)
      (by rw [hlen]; omega),
    readVZ_in (cmnd (difference initYin c7frame)) (2 + 1) (by omega)
      (by rw [hlen]; omega),
    show ((2 : ℤ) - 1).toNat = 1 from rfl,
    show ((2 : ℤ)).toNat = 2 from rfl,
    show ((2 : ℤ) + 1).toNat = 3 from rfl,
    c7_cm1, c7_cm2, c7_cm3]
  simp only [jsSub_num_num, jsMul_num_num]
  rw [jsDiv_num_num _ _ (by norm_num), jsAdd_num_num]
  norm_num

theorem c7_detect :
    detectPitch initYin c7frame = some (JSVal.num (180880560 / 7793)) := by
  rw [detectPitch_eq, c7_threshold, if_neg (by norm_num : ¬(2 : ℤ) = -1),
    c7_parabolic, SAMPLE_RATE, jsDiv_num_num _ _ (by norm_num)]
  norm_num

/-- C7 counterexample: on the perturbed alternating frame the estimator
detects lag `tau = 2` with `d'(2) = 1/2051`, so the spec's confidence would
be `1 - 1/2051 ≠ 1`; but `detectPitch` returns only the frequency, and the
caller (`app.handlePitchDetected`) attaches the fixed probability `1.0` to
the estimate — the reported confidence is not `1 - d'(tau)`. -/
theorem c7_counterexample :
    absoluteThreshold (cmnd (difference initYin c7frame)) = 2
    ∧ readV (cmnd (difference initYin c7frame)) 2 = JSVal.num (1 / 2051)
    ∧ detectPitch initYin c7frame = some (JSVal.num (180880560 / 7793))
    ∧ (appCandidates ((180880560 / 7793 : ℚ) : ℝ)).map Pitch.probability = [1]
    ∧ (1 : ℚ) ≠ 1 - 1 / 2051 :=
  ⟨c7_threshold, c7_cm2, c7_detect, rfl, by norm_num⟩

/-- C7 (amended): the estimator reports no confidence at all — `detectPitch`
returns only a frequency or `null` — and for every detected pitch the caller
`app.handlePitchDetected` attaches the fixed probability `1.0`, independent
of `1 - d'(tau)`, before handing the candidate to `handleDetectedPitches`. -/
theorem c7_thm (py : List JSVal) (bv : List ℚ) (q : ℚ) (conv : MIDIConverter)
    (th : ℚ) (h : detectPitch py bv = some (JSVal.num q)) :
    handlePitchDetected conv th ((q : ℝ)) =
      handleDetectedPitches conv [{ freq := (q : ℝ), probability := 1 }] th
    ∧ (appCandidates ((q : ℝ))).map Pitch.probability = [1] :=
  ⟨rfl, rfl⟩

/-- C7 witness: the amended statement instantiated at the perturbed
alternating frame, whose detection hypothesis is discharged by the computed
pitch. -/
theorem c7_witness :
    detectPitch initYin c7frame = some (JSVal.num (180880560 / 7793))
    ∧ (handlePitchDetected ⟨true, ∅⟩ (4 / 5) ((180880560 / 7793 : ℚ) : ℝ) =
        handleDetectedPitches ⟨true, ∅⟩
          [{ freq := ((180880560 / 7793 : ℚ) : ℝ), probability := 1 }] (4 / 5)
       ∧ (appCandidates (((180880560 / 7793 : ℚ) : ℝ))).map Pitch.probability
           = [1]) :=
  ⟨c7_detect, c7_thm initYin c7frame (180880560 / 7793) ⟨true, ∅⟩ (4 / 5) c7_detect⟩

/-! ### Claims C1, C5, C10: the note-state tracker -/

theorem sendNoteOn_mem (st : MIDIConverter) (m v : ℤ) (h : st.hasOutput = true)
    (hm : m ∈ st.activeNotes) : sendNoteOn st m v = (st, []) := by
  simp [sendNoteOn, h, hm]

theorem sendNoteOn_not_mem (st : MIDIConverter) (m v : ℤ) (h : st.hasOutput = true)
    (hm : m ∉ st.activeNotes) :
    sendNoteOn st m v =
      (⟨st.hasOutput, insert m st.activeNotes⟩, [.on m v]) := by
  simp [sendNoteOn, h, hm]

theorem sendNoteOff_mem (st : MIDIConverter) (m : ℤ) (h : st.hasOutput = true)
    (hm : m ∈ st.activeNotes) :
    sendNoteOff st m = (⟨st.hasOutput, st.activeNotes.erase m⟩, [.off m]) := by
  simp [sendNoteOff, h, hm]

theorem notePhase1_fold (th : ℚ) (ps : List Pitch) :
    ∀ (D : Finset ℤ) (conv : MIDIConverter) (E : List NoteEvent),
      conv.hasOutput = true →
      (ps.foldl (notePhase1Step th) (D, conv, E)).1 = D ∪ candidateNoteSet ps th
      ∧ (ps.foldl (notePhase1Step th) (D, conv, E)).2.1.hasOutput = true
      ∧ (ps.foldl (notePhase1Step th) (D, conv, E)).2.1.activeNotes
          = conv.activeNotes ∪ candidateNoteSet ps th
      ∧ (∀ n v, (ps.foldl (notePhase1Step th) (D, conv, E)).2.2.count (.on n v)
          = E.count (.on n v)
            + (if n ∈ candidateNoteSet ps th ∧ n ∉ conv.activeNotes ∧ v = 100
               then 1 else 0))
      ∧ (∀ n, (ps.foldl (notePhase1Step th) (D, conv, E)).2.2.count (.off n)
          = E.count (.off n)) := by
  induction ps with
  | nil =>
      intro D conv E h
      refine ⟨by simp [candidateNoteSet], h, by simp [candidateNoteSet], ?_, ?_⟩
      · intro n v
        simp [candidateNoteSet]
      · intro n
        simp
  | cons p rest ih =>
      intro D conv E h
      rw [List.foldl_cons]
      by_cases hp : th ≤ p.probability
      · have hset : candidateNoteSet (p :: rest) th
            = insert (frequencyToMidiNote p.freq) (candidateNoteSet rest th) := by
          rw [candidateNoteSet, candidateNoteSet,
            List.filter_cons_of_pos (by simpa using hp), List.map_cons,
            List.toFinset_cons]
        by_cases hmem : frequencyToMidiNote p.freq ∈ conv.activeNotes
        · have hstep : notePhase1Step th (D, conv, E) p
              = (insert (frequencyToMidiNote p.freq) D, conv, E) := by
            rw [notePhase1Step, if_pos hp]
            show (insert (frequencyToMidiNote p.freq) D,
              (sendNoteOn conv (frequencyToMidiNote p.freq) 100).1,
              E ++ (sendNoteOn conv (frequencyToMidiNote p.freq) 100).2) = _
            rw [sendNoteOn_mem conv _ 100 h hmem]
            simp
          rw [hstep]
          obtain ⟨i1, i2, i3, i4, i5⟩ :=
            ih (insert (frequencyToMidiNote p.freq) D) conv E h
          refine ⟨?_, i2, ?_, ?_, i5⟩
          · rw [i1, hset, Finset.insert_union, Finset.union_insert]
          · rw [i3, hset]
            ext x
            simp only [Finset.mem_union, Finset.mem_insert]
            constructor
            · rintro (hx | hx)
              · exact Or.inl hx
              · exact Or.inr (Or.inr hx)
            · rintro (hx | rfl | hx)
              · exact Or.inl hx
              · exact Or.inl hmem
              · exact Or.inr hx
          · intro n v
            rw [i4 n v, hset]
            congr 1
            refine if_congr ?_ rfl rfl
            rw [Finset.mem_insert]
            constructor
            · rintro ⟨h1, h2, h3⟩
              exact ⟨Or.inr h1, h2, h3⟩
            · rintro ⟨h1 | h1, h2, h3⟩
              · exact absurd (h1 ▸ hmem) h2
              · exact ⟨h1, h2, h3⟩
        · have hstep : notePhase1Step th (D, conv, E) p
              = (insert (frequencyToMidiNote p.freq) D,
                 ⟨conv.hasOutput, insert (frequencyToMidiNote p.freq) conv.activeNotes⟩,
                 E ++ [.on (frequencyToMidiNote p.freq) 100]) := by
            rw [notePhase1Step, if_pos hp]
            show (insert (frequencyToMidiNote p.freq) D,
              (sendNoteOn conv (frequencyToMidiNote p.freq) 100).1,
              E ++ (sendNoteOn conv (frequencyToMidiNote p.freq) 100).2) = _
            rw [sendNoteOn_not_mem conv _ 100 h hmem]
          rw [hstep]
          obtain ⟨i1, i2, i3, i4, i5⟩ :=
            ih (insert (frequencyToMidiNote p.freq) D)
              ⟨conv.hasOutput, insert (frequencyToMidiNote p.freq) conv.activeNotes⟩
              (E ++ [.on (frequencyToMidiNote p.freq) 100]) h
          refine ⟨?_, i2, ?_, ?_, ?_⟩
          · rw [i1, hset, Finset.insert_union, Finset.union_insert]
          · rw [i3, hset]
            show insert (frequencyToMidiNote p.freq) conv.activeNotes
                ∪ candidateNoteSet rest th = _
            rw [Finset.insert_union, Finset.union_insert]
          · intro n v
            rw [i4 n v, hset, List.count_append]
            show E.count (.on n v) + [NoteEvent.on (frequencyToMidiNote p.freq) 100].count (.on n v)
                + (if n ∈ candidateNoteSet rest th
                    ∧ n ∉ insert (frequencyToMidiNote p.freq) conv.activeNotes ∧ v = 100
                   then 1 else 0)
              = E.count (.on n v)
                + (if n ∈ insert (frequencyToMidiNote p.freq) (candidateNoteSet rest th)
                    ∧ n ∉ conv.activeNotes ∧ v = 100 then 1 else 0)
            rw [List.count_cons, List.count_nil]
            simp only [beq_iff_eq, NoteEvent.on.injEq, Finset.mem_insert]
            by_cases hn : n = frequencyToMidiNote p.freq
            · subst hn
              by_cases hv : v = 100
              · subst hv
                rw [if_pos ⟨rfl, rfl⟩, if_neg (by tauto), if_pos ⟨Or.inl rfl, hmem, rfl⟩]
              · rw [if_neg (by tauto), if_neg (by tauto), if_neg (by tauto)]
            · rw [if_neg (by tauto)]
              have hiff : ((n = frequencyToMidiNote p.freq ∨ n ∈ candidateNoteSet rest th)
                    ∧ n ∉ conv.activeNotes ∧ v = 100)
                  ↔ (n ∈ candidateNoteSet rest th
                    ∧ ¬(n = frequencyToMidiNote p.freq ∨ n ∈ conv.activeNotes)
                    ∧ v = 100) := by
                constructor
                · rintro ⟨h1 | h1, h2, h3⟩
                  · exact absurd h1 hn
                  · exact ⟨h1, by tauto, h3⟩
                · rintro ⟨h1, h2, h3⟩
                  exact ⟨Or.inr h1, by tauto, h3⟩
              rw [if_congr hiff rfl rfl]
              omega
          · intro n
            rw [i5 n, List.count_append, List.count_cons, List.count_nil]
            simp
      · have hset : candidateNoteSet (p :: rest) th = candidateNoteSet rest th := by
          rw [candidateNoteSet, candidateNoteSet,
            List.filter_cons_of_neg (by simpa using hp)]
        have hstep : notePhase1Step th (D, conv, E) p = (D, conv, E) := by
          rw [notePhase1Step, if_neg hp]
        rw [hstep, hset]
        exact ih D conv E h

theorem notePhase2_fold (D : Finset ℤ) (L : List ℤ) :
    ∀ (conv : MIDIConverter) (E : List NoteEvent),
      conv.hasOutput = true → L.Nodup → (∀ x ∈ L, x ∈ conv.activeNotes) →
      (L.foldl (notePhase2Step D) (conv, E)).1.hasOutput = true
      ∧ (L.foldl (notePhase2Step D) (conv, E)).1.activeNotes
          = conv.activeNotes \ (L.filter (fun n => decide (n ∉ D))).toFinset
      ∧ (∀ n v, (L.foldl (notePhase2Step D) (conv, E)).2.count (.on n v)
          = E.count (.on n v))
      ∧ (∀ n, (L.foldl (notePhase2Step D) (conv, E)).2.count (.off n)
          = E.count (.off n) + (if n ∈ L ∧ n ∉ D then 1 else 0)) := by
  induction L with
  | nil =>
      intro conv E h _ _
      refine ⟨h, by simp, fun n v => rfl, ?_⟩
      intro n
      simp
  | cons x L ih =>
      intro conv E h hnd hsub
      rw [List.foldl_cons]
      have hx : x ∈ conv.activeNotes := hsub x (by simp)
      have hndL : L.Nodup := (List.nodup_cons.mp hnd).2
      have hxL : x ∉ L := (List.nodup_cons.mp hnd).1
      by_cases hd : x ∈ D
      · have hstep : notePhase2Step D (conv, E) x = (conv, E) := by
          rw [notePhase2Step, if_neg (not_not_intro hd)]
        rw [hstep]
        have hfil : (x :: L).filter (fun n => decide (n ∉ D))
            = L.filter (fun n => decide (n ∉ D)) := by
          rw [List.filter_cons_of_neg (by simpa using hd)]
        obtain ⟨i1, i2, i3, i4⟩ := ih conv E h hndL
          (fun y hy => hsub y (by simp [hy]))
        refine ⟨i1, by rw [i2, hfil], i3, ?_⟩
        intro n
        rw [i4 n]
        congr 1
        refine if_congr ?_ rfl rfl
        constructor
        · rintro ⟨h1, h2⟩
          exact ⟨List.mem_cons_of_mem x h1, h2⟩
        · rintro ⟨h1, h2⟩
          rcases List.mem_cons.mp h1 with rfl | h1
          · exact absurd hd h2
          · exact ⟨h1, h2⟩
      · have hstep : notePhase2Step D (conv, E) x
            = (⟨conv.hasOutput, conv.activeNotes.erase x⟩, E ++ [.off x]) := by
          rw [notePhase2Step, if_pos hd]
          show ((sendNoteOff conv x).1, E ++ (sendNoteOff conv x).2) = _
          rw [sendNoteOff_mem conv x h hx]
        rw [hstep]
        obtain ⟨i1, i2, i3, i4⟩ := ih ⟨conv.hasOutput, conv.activeNotes.erase x⟩
          (E ++ [.off x]) h hndL (by
            intro y hy
            show y ∈ conv.activeNotes.erase x
            rw [Finset.mem_erase]
            refine ⟨?_, hsub y (by simp [hy])⟩
            rintro rfl
            exact hxL hy)
        refine ⟨i1, ?_, ?_, ?_⟩
        · rw [i2]
          show conv.activeNotes.erase x \ _ = _
          rw [List.filter_cons_of_pos (by simpa using hd), List.toFinset_cons]
          ext y
          simp only [Finset.mem_sdiff, Finset.mem_erase, Finset.mem_insert]
          tauto
        · intro n v
          rw [i3 n v, List.count_append, List.count_cons, List.count_nil]
          simp
        · intro n
          rw [i4 n, List.count_append, List.count_cons, List.count_nil]
          simp only [beq_iff_eq, NoteEvent.off.injEq]
          by_cases hn : n = x
          · subst hn
            rw [if_pos rfl, if_neg (by tauto), if_pos ⟨by simp, hd⟩]
          · rw [if_neg (show ¬x = n from fun he => hn he.symm)]
            have hiff : (n ∈ x :: L ∧ n ∉ D) ↔ (n ∈ L ∧ n ∉ D) := by
              constructor
              · rintro ⟨h1, h2⟩
                rcases List.mem_cons.mp h1 with rfl | h1
                · exact absurd rfl hn
                · exact ⟨h1, h2⟩
              · rintro ⟨h1, h2⟩
                exact ⟨List.mem_cons_of_mem x h1, h2⟩
            rw [if_congr hiff rfl rfl]
            omega

theorem handleDetectedPitches_spec (st : MIDIConverter) (ps : List Pitch) (th : ℚ)
    (h : st.hasOutput = true) :
    (handleDetectedPitches st ps th).1.hasOutput = true
    ∧ (handleDetectedPitches st ps th).1.activeNotes = candidateNoteSet ps th
    ∧ (∀ n v, (handleDetectedPitches st ps th).2.count (.on n v)
        = if n ∈ candidateNoteSet ps th ∧ n ∉ st.activeNotes ∧ v = 100
          then 1 else 0)
    ∧ (∀ n, (handleDetectedPitches st ps th).2.count (.off n)
        = if n ∈ st.activeNotes ∧ n ∉ candidateNoteSet ps th then 1 else 0) := by
  obtain ⟨p1, p2, p3, p4, p5⟩ := notePhase1_fold th ps ∅ st [] h
  have heq : handleDetectedPitches st ps th
      = (ps.foldl (notePhase1Step th) (∅, st, [])).2.1.activeNotes.toList.foldl
          (notePhase2Step (ps.foldl (notePhase1Step th) (∅, st, [])).1)
          ((ps.foldl (notePhase1Step th) (∅, st, [])).2.1,
           (ps.foldl (notePhase1Step th) (∅, st, [])).2.2) := rfl
  obtain ⟨q1, q2, q3, q4⟩ := notePhase2_fold
    (ps.foldl (notePhase1Step th) (∅, st, [])).1
    (ps.foldl (notePhase1Step th) (∅, st, [])).2.1.activeNotes.toList
    (ps.foldl (notePhase1Step th) (∅, st, [])).2.1
    (ps.foldl (notePhase1Step th) (∅, st, [])).2.2 p2 (Finset.nodup_toList _)
    (fun x hx => Finset.mem_toList.mp hx)
  rw [Finset.empty_union] at p1
  refine ⟨by rw [heq]; exact q1, ?_, ?_, ?_⟩
  · rw [heq, q2]
    ext y
    simp only [Finset.mem_sdiff, List.mem_toFinset, List.mem_filter,
      Finset.mem_toList, p3, p1, Finset.mem_union, decide_eq_true_eq]
    tauto
  · intro n v
    rw [heq, q3 n v, p4 n v, List.count_nil]
    exact Nat.zero_add _
  · intro n
    rw [heq, q4 n, p5 n, List.count_nil]
    have hiff : (n ∈ (ps.foldl (notePhase1Step th) (∅, st, [])).2.1.activeNotes.toList
          ∧ n ∉ (ps.foldl (notePhase1Step th) (∅, st, [])).1)
        ↔ (n ∈ st.activeNotes ∧ n ∉ candidateNoteSet ps th) := by
      rw [Finset.mem_toList, p3, p1, Finset.mem_union]
      constructor
      · rintro ⟨h1 | h1, h2⟩
        · exact ⟨h1, h2⟩
        · exact absurd h1 h2
      · rintro ⟨h1, h2⟩
        exact ⟨Or.inl h1, h2⟩
    rw [if_congr hiff rfl rfl]
    exact Nat.zero_add _

theorem noteEvents_eq_nil (l : List NoteEvent)
    (hon : ∀ n v, l.count (.on n v) = 0) (hoff : ∀ n, l.count (.off n) = 0) :
    l = [] := by
  cases l with
  | nil => rfl
  | cons e t =>
      exfalso
      rcases e with ⟨n, v⟩ | ⟨n⟩
      · have := hon n v
        simp [List.count_cons] at this
      · have := hoff n
        simp [List.count_cons] at this

/-- C1: with a MIDI output present, one call to `handleDetectedPitches`
emits a Note On (velocity 100) exactly once for each candidate note (note of
a pitch whose probability meets the threshold) not already active, a Note
Off exactly once for each active note not among the candidates, and
afterwards the active set equals exactly the candidate set. -/
theorem c1_thm (st : MIDIConverter) (ps : List Pitch) (th : ℚ)
    (h : st.hasOutput = true) :
    (handleDetectedPitches st ps th).1.activeNotes = candidateNoteSet ps th
    ∧ (∀ n v, (handleDetectedPitches st ps th).2.count (.on n v)
        = if n ∈ candidateNoteSet ps th ∧ n ∉ st.activeNotes ∧ v = 100
          then 1 else 0)
    ∧ (∀ n, (handleDetectedPitches st ps th).2.count (.off n)
        = if n ∈ st.activeNotes ∧ n ∉ candidateNoteSet ps th then 1 else 0) := by
  obtain ⟨-, h2, h3, h4⟩ := handleDetectedPitches_spec st ps th h
  exact ⟨h2, h3, h4⟩

/-- C5: with a MIDI output present, calling `handleDetectedPitches` twice in
a row with the same pitch list (hence the same candidate-note set) produces
zero events on the second call, for every starting active set. -/
theorem c5_thm (st : MIDIConverter) (ps : List Pitch) (th : ℚ)
    (h : st.hasOutput = true) :
    (handleDetectedPitches (handleDetectedPitches st ps th).1 ps th).2 = [] := by
  obtain ⟨h1out, h1act, -, -⟩ := handleDetectedPitches_spec st ps th h
  obtain ⟨-, -, h3, h4⟩ :=
    handleDetectedPitches_spec (handleDetectedPitches st ps th).1 ps th h1out
  refine noteEvents_eq_nil _ ?_ ?_
  · intro n v
    rw [h3 n v, h1act, if_neg (by tauto)]
  · intro n
    rw [h4 n, h1act, if_neg (by tauto)]

/-- C5 witness: a concrete second call with an unchanged pitch list emits
nothing. -/
theorem c5_witness :
    (⟨true, {5}⟩ : MIDIConverter).hasOutput = true
    ∧ (handleDetectedPitches
        (handleDetectedPitches ⟨true, {5}⟩ [⟨(440 : ℝ), 1⟩] (1 / 2)).1
        [⟨(440 : ℝ), 1⟩] (1 / 2)).2 = [] :=
  ⟨rfl, c5_thm ⟨true, {5}⟩ [⟨(440 : ℝ), 1⟩] (1 / 2) rfl⟩

/-- C10: without a MIDI output device (`midiOutput` null), `sendNoteOn`,
`sendNoteOff` and `handleDetectedPitches` all return without sending any
message and leave the converter state (in particular `activeNotes`)
unchanged. -/
theorem c10_thm (st : MIDIConverter) (ps : List Pitch) (th : ℚ) (n v : ℤ)
    (h : st.hasOutput = false) :
    sendNoteOn st n v = (st, []) ∧ sendNoteOff st n = (st, [])
    ∧ handleDetectedPitches st ps th = (st, []) := by
  have hon : ∀ m w, sendNoteOn st m w = (st, []) := by
    intro m w
    rw [sendNoteOn]
    simp [h]
  have hoff : ∀ m, sendNoteOff st m = (st, []) := by
    intro m
    rw [sendNoteOff]
    simp [h]
  refine ⟨hon n v, hoff n, ?_⟩
  have h1 : ∀ (l : List Pitch) (D : Finset ℤ) (E : List NoteEvent),
      (l.foldl (notePhase1Step th) (D, st, E)).2 = (st, E) := by
    intro l
    induction l with
    | nil => intro D E; rfl
    | cons p rest ih =>
        intro D E
        rw [List.foldl_cons]
        by_cases hp : th ≤ p.probability
        · have hstep : notePhase1Step th (D, st, E) p
              = (insert (frequencyToMidiNote p.freq) D, st, E) := by
            rw [notePhase1Step, if_pos hp]
            show (insert (frequencyToMidiNote p.freq) D,
              (sendNoteOn st (frequencyToMidiNote p.freq) 100).1,
              E ++ (sendNoteOn st (frequencyToMidiNote p.freq) 100).2) = _
            rw [hon]
            simp
          rw [hstep]
          exact ih _ E
        · rw [show notePhase1Step th (D, st, E) p = (D, st, E) from by
            rw [notePhase1Step, if_neg hp]]
          exact ih D E
  have h2 : ∀ (L : List ℤ) (D : Finset ℤ) (E : List NoteEvent),
      L.foldl (notePhase2Step D) (st, E) = (st, E) := by
    intro L D
    induction L with
    | nil => intro E; rfl
    | cons x rest ih =>
        intro E
        rw [List.foldl_cons]
        by_cases hd : x ∉ D
        · have hstep : notePhase2Step D (st, E) x = (st, E) := by
            rw [notePhase2Step, if_pos hd]
            show ((sendNoteOff st x).1, E ++ (sendNoteOff st x).2) = _
            rw [hoff]
            simp
          rw [hstep]
          exact ih E
        · rw [show notePhase2Step D (st, E) x = (st, E) from by
            rw [notePhase2Step, if_neg hd]]
          exact ih E
  have heq : handleDetectedPitches st ps th
      = (ps.foldl (notePhase1Step th) (∅, st, [])).2.1.activeNotes.toList.foldl
          (notePhase2Step (ps.foldl (notePhase1Step th) (∅, st, [])).1)
          ((ps.foldl (notePhase1Step th) (∅, st, [])).2.1,
           (ps.foldl (notePhase1Step th) (∅, st, [])).2.2) := rfl
  have ha : (ps.foldl (notePhase1Step th) (∅, st, [])).2.1 = st := by
    rw [h1 ps ∅ []]
  have hb : (ps.foldl (notePhase1Step th) (∅, st, [])).2.2
      = ([] : List NoteEvent) := by
    rw [h1 ps ∅ []]
  rw [heq, ha, hb, h2]

/-- C10 witness: with no output device, a converter holding active note 60
is left untouched by all three operations and nothing is sent. -/
theorem c10_witness :
    (⟨false, {60}⟩ : MIDIConverter).hasOutput = false
    ∧ (sendNoteOn ⟨false, {60}⟩ 60 100 = (⟨false, {60}⟩, [])
       ∧ sendNoteOff ⟨false, {60}⟩ 60 = (⟨false, {60}⟩, [])
       ∧ handleDetectedPitches ⟨false, {60}⟩ [⟨(440 : ℝ), 1⟩] (4 / 5)
           = (⟨false, {60}⟩, [])) :=
  ⟨rfl, c10_thm ⟨false, {60}⟩ [⟨(440 : ℝ), 1⟩] (4 / 5) 60 100 rfl⟩

/-! ### Claims C2, C6: the note mapper -/

theorem frequencyToMidiNote_440 : frequencyToMidiNote 440 = 69 := by
  rw [frequencyToMidiNote, div_self (by norm_num : (440 : ℝ) ≠ 0), Real.logb_one]
  rw [show (69 : ℝ) + 12 * 0 = 69 from by norm_num, round_eq]
  refine Int.floor_eq_iff.mpr ⟨?_, ?_⟩ <;> norm_num

theorem logb_26163_le :
    ((-19 : ℝ) / 24) ≤ Real.logb 2 ((261.63 : ℝ) / 440) := by
  have hr : (0 : ℝ) < (261.63 : ℝ) / 440 := by norm_num
  rw [← Real.rpow_le_rpow_left_iff (show (1 : ℝ) < 2 from by norm_num),
    Real.rpow_logb (by norm_num) (by norm_num) hr]
  have ha : (0 : ℝ) ≤ (2 : ℝ) ^ ((-19 : ℝ) / 24) :=
    le_of_lt (Real.rpow_pos_of_pos (by norm_num) _)
  rw [← pow_le_pow_iff_left₀ ha (le_of_lt hr) (show 24 ≠ 0 from by norm_num)]
  have hpow : ((2 : ℝ) ^ ((-19 : ℝ) / 24)) ^ (24 : ℕ) = ((2 : ℝ) ^ (19 : ℕ))⁻¹ := by
    rw [← Real.rpow_natCast ((2 : ℝ) ^ ((-19 : ℝ) / 24)) 24,
      ← Real.rpow_mul (by norm_num : (0 : ℝ) ≤ 2),
      show ((-19 : ℝ) / 24) * (24 : ℕ) = -(19 : ℕ) from by push_cast; ring,
      Real.rpow_neg (by norm_num), Real.rpow_natCast]
  rw [hpow]
  norm_num

theorem logb_26163_lt :
    Real.logb 2 ((261.63 : ℝ) / 440) < (-17 : ℝ) / 24 := by
  have hr : (0 : ℝ) < (261.63 : ℝ) / 440 := by norm_num
  rw [← Real.rpow_lt_rpow_left_iff (show (1 : ℝ) < 2 from by norm_num),
    Real.rpow_logb (by norm_num) (by norm_num) hr]
  have ha : (0 : ℝ) ≤ (2 : ℝ) ^ ((-17 : ℝ) / 24) :=
    le_of_lt (Real.rpow_pos_of_pos (by norm_num) _)
  rw [← pow_lt_pow_iff_left₀ (le_of_lt hr) ha (show 24 ≠ 0 from by norm_num)]
  have hpow : ((2 : ℝ) ^ ((-17 : ℝ) / 24)) ^ (24 : ℕ) = ((2 : ℝ) ^ (17 : ℕ))⁻¹ := by
    rw [← Real.rpow_natCast ((2 : ℝ) ^ ((-17 : ℝ) / 24)) 24,
      ← Real.rpow_mul (by norm_num : (0 : ℝ) ≤ 2),
      show ((-17 : ℝ) / 24) * (24 : ℕ) = -(17 : ℕ) from by push_cast; ring,
      Real.rpow_neg (by norm_num), Real.rpow_natCast]
  rw [hpow]
  norm_num

theorem frequencyToMidiNote_26163 : frequencyToMidiNote 261.63 = 60 := by
  rw [frequencyToMidiNote, round_eq]
  have h1 := logb_26163_le
  have h2 := logb_26163_lt
  refine Int.floor_eq_iff.mpr ⟨?_, ?_⟩
  · push_cast
    linarith
  · push_cast
    linarith

/-- C2: `frequencyToMidiNote` computes `round(69 + 12·log2(f/440))` for
every positive frequency, and in particular maps 440 Hz to note 69 and
261.63 Hz to note 60 exactly. -/
theorem c2_thm :
    (∀ f : ℝ, 0 < f →
      frequencyToMidiNote f = round (69 + 12 * Real.logb 2 (f / 440)))
    ∧ frequencyToMidiNote 440 = 69 ∧ frequencyToMidiNote 261.63 = 60 :=
  ⟨fun _ _ => rfl, frequencyToMidiNote_440, frequencyToMidiNote_26163⟩

/-- C2 witness: the formula instantiated at the positive frequency 440. -/
theorem c2_witness :
    (0 : ℝ) < 440
    ∧ frequencyToMidiNote 440 = round (69 + 12 * Real.logb 2 ((440 : ℝ) / 440)) :=
  ⟨by norm_num, c2_thm.1 440 (by norm_num)⟩

/-- C6: for every note number `n` in `[21, 108]`,
`frequencyToMidiNote (midiNoteToFrequency n) = n` (round-trip fidelity). -/
theorem c6_thm (n : ℤ) (h1 : 21 ≤ n) (h2 : n ≤ 108) :
    frequencyToMidiNote (midiNoteToFrequency n) = n := by
  rw [frequencyToMidiNote, midiNoteToFrequency,
    mul_comm (440 : ℝ) ((2 : ℝ) ^ (((n : ℝ) - 69) / 12)), mul_div_assoc,
    div_self (by norm_num : (440 : ℝ) ≠ 0), mul_one,
    Real.logb_rpow (by norm_num : (0 : ℝ) < 2) (by norm_num : (2 : ℝ) ≠ 1),
    show (69 : ℝ) + 12 * (((n : ℝ) - 69) / 12) = (n : ℝ) from by ring,
    round_intCast]

/-- C6 witness: the round-trip at concert A (note 69). -/
theorem c6_witness :
    (21 : ℤ) ≤ 69 ∧ (69 : ℤ) ≤ 108
    ∧ frequencyToMidiNote (midiNoteToFrequency 69) = 69 :=
  ⟨by norm_num, by norm_num, c6_thm 69 (by norm_num) (by norm_num)⟩

theorem candidateNoteSet_26163 :
    candidateNoteSet [⟨(261.63 : ℝ), 1⟩] (4 / 5) = {60} := by
  rw [candidateNoteSet, List.filter_cons_of_pos (by
    show decide ((4 : ℚ) / 5 ≤ (Pitch.mk (261.63 : ℝ) 1).probability) = true
    rw [decide_eq_true_eq]
    norm_num)]
  rw [List.filter_nil, List.map_cons, List.map_nil]
  show [frequencyToMidiNote (261.63 : ℝ)].toFinset = {60}
  rw [frequencyToMidiNote_26163]
  rfl

/-- C1 witness: with an output device, `update({60})` (the pitch 261.63 Hz,
note 60, probability 1, threshold 0.8) on an empty active set emits exactly
one `On(60, 100)` and leaves `{60}` active; `update({})` from `{60}` emits
exactly one `Off(60)`. -/
theorem c1_witness :
    (⟨true, ∅⟩ : MIDIConverter).hasOutput = true
    ∧ (handleDetectedPitches ⟨true, ∅⟩ [⟨(261.63 : ℝ), 1⟩] (4 / 5)).2.count
        (.on 60 100) = 1
    ∧ (handleDetectedPitches ⟨true, ∅⟩ [⟨(261.63 : ℝ), 1⟩] (4 / 5)).1.activeNotes
        = {60}
    ∧ (handleDetectedPitches ⟨true, {60}⟩ [] (4 / 5)).2.count (.off 60) = 1 := by
  have hempty : candidateNoteSet [] (4 / 5 : ℚ) = ∅ := rfl
  refine ⟨rfl, ?_, ?_, ?_⟩
  · rw [(c1_thm ⟨true, ∅⟩ [⟨(261.63 : ℝ), 1⟩] (4 / 5) rfl).2.1 60 100,
      candidateNoteSet_26163,
      if_pos ⟨Finset.mem_singleton_self 60, Finset.not_mem_empty 60, rfl⟩]
  · rw [(c1_thm ⟨true, ∅⟩ [⟨(261.63 : ℝ), 1⟩] (4 / 5) rfl).1,
      candidateNoteSet_26163]
  · rw [(c1_thm ⟨true, {60}⟩ [] (4 / 5) rfl).2.2 60, hempty,
      if_pos ⟨Finset.mem_singleton_self 60, Finset.not_mem_empty 60⟩]
